import Mathlib

/-!
Verification development for the chatcli conversation-log tool.

The Python sources (chatcli_gpt/conversation.py, chatcli_gpt/log.py,
chatcli_gpt/cli.py) are shallowly embedded below: JSON values become the
inductive `JsonVal`, Python dynamic operations (truthiness, `or`, `in`,
subscripting, `dict.get`) become total Lean functions over `JsonVal`,
fallible code returns `Except PyErr`, and the on-disk log file becomes an
explicit `LogFS` state threaded through the log-store operations.
-/

set_option autoImplicit false

namespace Chatcli

/-- Python exception kinds that the embedded code can raise. -/
inductive PyErr where
  | keyError
  | typeError
  | attributeError
  | assertionError
  | valueError
  | indexError
  | fileNotFound
  | fileExists
  | jsonDecode
  | systemExit
deriving DecidableEq, Repr

/-- JSON values, as produced by json.loads on one log line. -/
inductive JsonVal where
  | null
  | bool (b : Bool)
  | num (n : Int)
  | str (s : String)
  | arr (xs : List JsonVal)
  | obj (fields : List (String × JsonVal))
deriving Repr

/-- Python truthiness of a JSON value: None, False, 0, empty string, empty
list and empty dict are falsy, everything else truthy. -/
def pyTruthy : JsonVal → Bool
  | .null => false
  | .bool b => b
  | .num n => n != 0
  | .str s => s ≠ ""
  | .arr xs => ¬ xs.isEmpty
  | .obj fs => ¬ fs.isEmpty

/-- Python `a or b` on JSON values: `a` when truthy, else `b`. -/
def pyOr (a b : JsonVal) : JsonVal :=
  if pyTruthy a then a else b

/-- Lookup of a key in a JSON object (the value of `fields[k]` when present). -/
def objGet (v : JsonVal) (k : String) : Option JsonVal :=
  match v with
  | .obj fs => (fs.find? (fun p => p.1 = k)).map Prod.snd
  | _ => none

/-- Python `data.get(k, default)` on a JSON object. -/
def objGetD (v : JsonVal) (k : String) (dflt : JsonVal) : JsonVal :=
  (objGet v k).getD dflt

/-- Python `data.get(k)` on an arbitrary value: AttributeError when the
receiver is not a dict, else the value or None. -/
def pyGet (v : JsonVal) (k : String) : Except PyErr JsonVal :=
  match v with
  | .obj _ => .ok (objGetD v k .null)
  | _ => .error .attributeError

/-- Python subscript `v[k]` with a string key: KeyError on a dict missing
the key, TypeError on any non-dict receiver. -/
def pySubscript (v : JsonVal) (k : String) : Except PyErr JsonVal :=
  match v with
  | .obj fs =>
    match fs.find? (fun p => p.1 = k) with
    | some p => .ok p.2
    | none => .error .keyError
  | _ => .error .typeError

/-- Substring containment, Python `needle in haystack` for strings. -/
def strContains (hay needle : String) : Bool :=
  (List.range (hay.toList.length + 1)).any
    (fun i => needle.toList.isPrefixOf (hay.toList.drop i))

/-- Python `needle in container` for a string needle: key membership for a
dict, element equality for a list, substring test for a string, TypeError
otherwise. -/
def pyIn (needle : String) (container : JsonVal) : Except PyErr Bool :=
  match container with
  | .obj fs => .ok (fs.any (fun p => p.1 = needle))
  | .arr xs =>
    .ok (xs.any (fun v => match v with | .str s => s = needle | _ => false))
  | .str s => .ok (strContains s needle)
  | _ => .error .typeError

/-- Replacement of a key's value in an association list, keeping its
position, appending the pair when the key is absent (Python dict
assignment on an insertion-ordered dict). -/
def setKeyList (fs : List (String × JsonVal)) (k : String) (v : JsonVal) :
    List (String × JsonVal) :=
  match fs with
  | [] => [(k, v)]
  | p :: rest => if p.1 = k then (k, v) :: rest else p :: setKeyList rest k v

/-- Python `d[k] = v` on a dict value; TypeError with a string key on
non-dicts. -/
def pySetKey (d : JsonVal) (k : String) (v : JsonVal) : Except PyErr JsonVal :=
  match d with
  | .obj fs => .ok (.obj (setKeyList fs k v))
  | _ => .error .typeError

/-- Python `del d[k]` on a dict value. -/
def pyDelKey (d : JsonVal) (k : String) : Except PyErr JsonVal :=
  match d with
  | .obj fs => .ok (.obj (fs.filter (fun p => ¬ p.1 = k)))
  | _ => .error .typeError

/-- Python `isinstance(v, list)` for JSON values. -/
def isList : JsonVal → Bool
  | .arr _ => true
  | _ => false

/-- Python `isinstance(v, dict)` for JSON values. -/
def isDict : JsonVal → Bool
  | .obj _ => true
  | _ => false

/-- Python `v is None` for JSON values. -/
def isNull : JsonVal → Bool
  | .null => true
  | _ => false

/-- Python `isinstance(v, dict) or v is None`, the shape accepted by the
migration asserts for completion and usage. -/
def isDictOrNull : JsonVal → Bool
  | .obj _ => true
  | .null => true
  | _ => false

/-- Python `assert b`: AssertionError when the condition is false. -/
def pyAssert (b : Bool) : Except PyErr Unit :=
  if b then .ok () else .error .assertionError

/-! ## Conversation (chatcli_gpt/conversation.py) -/

/-- One chat message, `\x7brole, content\x7d`. -/
structure ChatMessage where
  role : String
  content : String
deriving DecidableEq, Repr

/-- In-memory conversation, the fields set by `Conversation.__init__`. -/
structure Conversation where
  messages : List ChatMessage
  plugins : List String
  tags : List String
  model : Option String
  usage : Option JsonVal
  completion : Option JsonVal
  timestamp : Option String
deriving Repr

/-- The function `is_personality`: a tag is personality-marked when it
starts with the caret sentinel (Python `tag.startswith` over the character
sequence). -/
def is_personality (tag : String) : Bool :=
  "^".toList.isPrefixOf tag.toList

/-- The method `Conversation.clone`: copies the field dict, collapses tags
to the last tag when that tag exists and is not personality-marked (else
empty), drops the completion, and overrides the model when a truthy model
argument is given. -/
def Conversation.clone (c : Conversation) (model : Option String) :
    Conversation :=
  { c with
    tags :=
      match c.tags.getLast? with
      | some t => if ¬ is_personality t then [t] else []
      | none => []
    completion := none
    model :=
      match model with
      | some m => if m ≠ "" then some m else c.model
      | none => c.model }

/-- The method `Conversation.__contains__`: tests the search term against
the second-to-last message when at least two messages exist, else the last
message; IndexError on an empty message list. -/
def Conversation.contains_term (c : Conversation) (s : String) :
    Except PyErr Bool :=
  match (if c.messages.length > 1 then c.messages.get? (c.messages.length - 2)
         else c.messages.get? (c.messages.length - 1)) with
  | some msg => .ok (strContains msg.content s)
  | none => .error .indexError

/-- The method `Conversation.find`: scans messages newest-first and returns
the first one satisfying the predicate, ValueError when none does. -/
def Conversation.find (c : Conversation) (p : ChatMessage → Bool) :
    Except PyErr ChatMessage :=
  match c.messages.reverse.find? p with
  | some m => .ok m
  | none => .error .valueError

/-! ## Streaming accumulator (accumulate_streaming_response) -/

/-- One streamed fragment: the optional content delta of
`chunk.choices[0].delta.content` plus the id/created/model metadata
fields carried by the chunk. -/
structure Chunk where
  content : Option String
  id : Option String
  created : Option Int
  model : Option String
deriving DecidableEq, Repr

/-- The loop state of `accumulate_streaming_response`: the accumulated
content, the first-wins metadata dict, and the trace of callback
invocations in order. -/
structure StreamState where
  accumulated_content : String
  id : Option String
  created : Option Int
  model : Option String
  callback_trace : List String
deriving DecidableEq, Repr

/-- Initial loop state: empty completion dict and empty accumulation. -/
def initStreamState : StreamState :=
  ⟨"", none, none, none, []⟩

/-- One iteration of the accumulation loop body: append a truthy content
delta and invoke the callback with it, then fill each still-missing
metadata field from the chunk. -/
def stream_step (st : StreamState) (chunk : Chunk) : StreamState :=
  let st :=
    match chunk.content with
    | some s =>
      if s ≠ "" then
        { st with accumulated_content := st.accumulated_content ++ s
                  callback_trace := st.callback_trace ++ [s] }
      else st
    | none => st
  let st := if st.id = none then { st with id := chunk.id } else st
  let st := if st.created = none then { st with created := chunk.created } else st
  if st.model = none then { st with model := chunk.model } else st

/-- An event seen by the `async for` loop: either the arrival of a chunk,
or an asyncio.CancelledError raised at the fragment boundary. -/
inductive StreamEvent where
  | chunk (c : Chunk)
  | cancelled
deriving DecidableEq, Repr

/-- The `try: async for ...` loop: consumes chunk events in order; a
cancellation event stops the loop, and the `except asyncio.CancelledError:
pass` handler keeps the state accumulated so far. -/
def stream_loop : List StreamEvent → StreamState → StreamState
  | [], st => st
  | .cancelled :: _, st => st
  | .chunk c :: rest, st => stream_loop rest (stream_step st c)

/-- The assembled response message of a choice. -/
structure RespMessage where
  role : String
  content : String
deriving DecidableEq, Repr

/-- The assembled response choice. -/
structure RespChoice where
  finish_reason : String
  index : Int
  text : String
  message : RespMessage
deriving DecidableEq, Repr

/-- The assembled Completion object returned by the accumulator. -/
structure CompletionResp where
  object : String
  usage : Option JsonVal
  choices : List RespChoice
  id : Option String
  created : Option Int
  model : Option String
deriving Repr

/-- Assembly of the final Completion from the loop state: one choice with
role assistant, finish reason stop, and the first-wins metadata. -/
def finalizeResponse (st : StreamState) : CompletionResp :=
  { object := "text_completion"
    usage := none
    choices := [{ finish_reason := "stop"
                  index := 0
                  text := st.accumulated_content
                  message := { role := "assistant"
                               content := st.accumulated_content } }]
    id := st.id
    created := st.created
    model := st.model }

/-- The function `accumulate_streaming_response` over an event stream:
runs the loop (absorbing cancellation) and returns the assembled response
paired with the callback trace; no failure is ever propagated. -/
def accumulate_streaming_response (events : List StreamEvent) :
    Except PyErr (CompletionResp × List String) :=
  let st := stream_loop events initStreamState
  .ok (finalizeResponse st, st.callback_trace)

/-! ## Log store (chatcli_gpt/log.py)

The on-disk log file is modelled as the list of JSON values of its lines;
`LogFS` also tracks the backup file written by the migration. -/

/-- The version string LOG_FILE_VERSION. -/
def LOG_FILE_VERSION : String := "0.4"

/-- The version-marker line written first to every current-format file. -/
def versionLine : JsonVal :=
  .obj [("version", .str LOG_FILE_VERSION)]

/-- On-disk state: the log file's lines (as parsed JSON values) and the
optional migration backup file. -/
structure LogFS where
  log : List JsonVal
  backup : Option (List JsonVal)
deriving Repr

/-- JSON encoding of one message dict as written by `write_log`. -/
def messageToJson (m : ChatMessage) : JsonVal :=
  .obj [("role", .str m.role), ("content", .str m.content)]

/-- The JSON object `write_log` dumps for one conversation: messages, the
completion (None when absent), the usage (None when absent), the tags, the
write-time timestamp, the plugins and the model. -/
def write_log_entry (now : String) (c : Conversation)
    (usage completion : Option JsonVal) : JsonVal :=
  .obj [("messages", .arr (c.messages.map messageToJson)),
        ("completion", completion.getD .null),
        ("usage", usage.getD .null),
        ("tags", .arr (c.tags.map JsonVal.str)),
        ("timestamp", .str now),
        ("plugins", .arr (c.plugins.map JsonVal.str)),
        ("model", (c.model.map JsonVal.str).getD .null)]

/-- The function `write_log`: appends one JSON line to the log file. -/
def write_log (now : String) (file : List JsonVal) (c : Conversation)
    (usage completion : Option JsonVal) : List JsonVal :=
  file ++ [write_log_entry now c usage completion]

/-- The function `create_initial_log`, over the optional current file
content (`none` = the file does not exist) and the bundled default
starter conversations: raises FileExistsError when the file exists and
reinit was not requested; otherwise writes the version line when the file
does not exist, then appends every default conversation via `write_log`.
The result pairs the raised error (if any) with the final file content. -/
def create_initial_log (now : String) (defaults : List Conversation)
    (reinit : Bool) (fs : Option (List JsonVal)) :
    Option PyErr × Option (List JsonVal) :=
  if ¬ reinit ∧ fs.isSome then
    (some .fileExists, fs)
  else
    let base := match fs with
      | some lines => lines
      | none => [versionLine]
    (none, some (defaults.foldl (fun f c => write_log now f c none none) base))

/-! ### Legacy migration (convert_log_pre_0_4) -/

/-- The usage-renaming block of `convert_log_pre_0_4`: when usage is
truthy and contains "request_tokens", copy it to "prompt_tokens" and
delete "request_tokens" (dynamic errors as in Python for non-dict
containers). -/
def migUsage (usage : JsonVal) : Except PyErr JsonVal := do
  if pyTruthy usage then
    let hasRT ← pyIn "request_tokens" usage
    if hasRT then
      let v ← pySubscript usage "request_tokens"
      let usage1 ← pySetKey usage "prompt_tokens" v
      pyDelKey usage1 "request_tokens"
    else
      pure usage
  else
    pure usage

/-- The timestamp expression of `convert_log_pre_0_4`:
`data.get("timestamp") or (completion and fromtimestamp(completion.get("created")).isoformat()) or now`,
with `isoOf` standing for `datetime.fromtimestamp(·, tz=utc).isoformat()`
(AttributeError on a truthy non-dict completion, TypeError when created is
not a number; a Python bool counts as a number). -/
def migTimestamp (isoOf : Int → String) (now : String)
    (dataTs completion : JsonVal) : Except PyErr JsonVal := do
  if pyTruthy dataTs then
    pure dataTs
  else if pyTruthy completion then
    let created ←
      match completion with
      | .obj _ => pure (objGetD completion "created" .null)
      | _ => Except.error .attributeError
    let iso ←
      match created with
      | .num n => pure (JsonVal.str (isoOf n))
      | .bool b => pure (JsonVal.str (isoOf (if b then 1 else 0)))
      | _ => Except.error .typeError
    pure (pyOr iso (.str now))
  else
    pure (.str now)

/-- One iteration of `convert_log_pre_0_4` on one parsed legacy line, in
source statement order: the `data["messages"]` and `data["usage"]`
lookups, the usage rename, the tags/completion defaults, the timestamp
backfill, the four shape asserts, then the converted dict in its write
order. -/
def convert_entry (isoOf : Int → String) (now : String) (data : JsonVal) :
    Except PyErr JsonVal := do
  match data with
  | .obj _ => do
    let messages ← pySubscript data "messages"
    let usage0 ← pySubscript data "usage"
    let usage ← migUsage usage0
    let tags := objGetD data "tags" (.arr [])
    let completion :=
      pyOr (objGetD data "completion" .null) (objGetD data "response" .null)
    let timestamp ←
      migTimestamp isoOf now (objGetD data "timestamp" .null) completion
    pyAssert (isList messages)
    pyAssert (isList tags)
    pyAssert (isDictOrNull completion)
    pyAssert (isDictOrNull usage)
    pure (.obj [("messages", messages),
                ("completion", completion),
                ("tags", tags),
                ("usage", usage),
                ("timestamp", timestamp),
                ("plugins", objGetD data "plugins" (.arr [])),
                ("model", objGetD data "model" .null)])
  | _ => Except.error .typeError

/-- Left-to-right effectful map over Except, the semantics of forcing the
conversion generator with `list(...)`. -/
def mapExcept {α β : Type} (f : α → Except PyErr β) :
    List α → Except PyErr (List β)
  | [] => .ok []
  | a :: l => do
    let b ← f a
    let bs ← mapExcept f l
    pure (b :: bs)

/-- The generator `convert_log_pre_0_4`, forced by `list(...)`: converts
every line in order, failing at the first bad line. -/
def convert_log_pre_0_4 (isoOf : Int → String) (now : String)
    (entries : List JsonVal) : Except PyErr (List JsonVal) :=
  mapExcept (convert_entry isoOf now) entries

/-- The function `conversation_log`: reads the first line; a missing or
null version value triggers the migration (convert all lines, then copy
the backup and rewrite the file with the version header first); a present
version returns the remaining lines. The result pairs the returned lines
(or raised error) with the final on-disk state. -/
def conversation_log (isoOf : Int → String) (now : String) (fs : LogFS) :
    Except PyErr (List JsonVal) × LogFS :=
  match fs.log with
  | [] => (.error .jsonDecode, fs)
  | first :: rest =>
    match first with
    | .obj _ =>
      if isNull (objGetD first "version" .null) then
        match convert_log_pre_0_4 isoOf now fs.log with
        | .error e => (.error e, fs)
        | .ok lines => (.ok lines, ⟨versionLine :: lines, some fs.log⟩)
      else
        (.ok rest, fs)
    | _ => (.error .attributeError, fs)

/-! ## Search and selection (search_conversations, find_log, cli.py) -/

/-- The filter body of one `search_conversations` loop iteration, in
source order: the offsets guard, then the search guard (which may raise
IndexError through `__contains__`), then the tag guard; `true` means the
pair is yielded. Empty offset lists and empty strings are falsy and apply
no filter. -/
def search_step (offsets : List Nat) (search tag : Option String)
    (idx : Nat) (c : Conversation) : Except PyErr Bool := do
  if ¬ offsets.isEmpty ∧ ¬ idx ∈ offsets then
    pure false
  else
    let skipSearch ←
      match search with
      | some s =>
        if s ≠ "" then do
          let b ← c.contains_term s
          pure (!b)
        else pure false
      | none => pure false
    if skipSearch then
      pure false
    else
      let skipTag : Bool :=
        match tag with
        | some t => if t ≠ "" then !(decide (t ∈ c.tags)) else false
        | none => false
      pure (!skipTag)

/-- The forced generator loop of `search_conversations`, counting `idx`
upward over the already reversed history. -/
def searchGo (offsets : List Nat) (search tag : Option String) :
    Nat → List Conversation → Except PyErr (List (Nat × Conversation))
  | _, [] => .ok []
  | idx, c :: rest => do
    let keep ← search_step offsets search tag idx c
    let others ← searchGo offsets search tag (idx + 1) rest
    pure (if keep then (idx, c) :: others else others)

/-- The function `search_conversations`: enumerates the reversed history
starting at offset 1 and yields the `(offset, conversation)` pairs passing
all guards. -/
def search_conversations (convs : List Conversation) (offsets : List Nat)
    (search tag : Option String) : Except PyErr (List (Nat × Conversation)) :=
  searchGo offsets search tag 1 convs.reverse

/-- The `offsets = [offset] if offset else []` conversion in
`get_logged_conversation` (a zero offset is falsy). -/
def offsetsOfArg : Option Nat → List Nat
  | some n => if n ≠ 0 then [n] else []
  | none => []

/-- The `next(...)` consumption in `get_logged_conversation`: walks the
generator until the first yielded pair, raising errors from the guards as
they occur. -/
def firstYield (offsets : List Nat) (search tag : Option String) :
    Nat → List Conversation → Except PyErr Conversation
  | _, [] => .error .systemExit
  | idx, c :: rest => do
    let keep ← search_step offsets search tag idx c
    if keep then pure c else firstYield offsets search tag (idx + 1) rest

/-- The function `get_logged_conversation`: selects the first conversation
matching the filters; `StopIteration` is caught and converted into a
terminated run (sys.exit(1)). -/
def get_logged_conversation (convs : List Conversation) (offset : Option Nat)
    (search tag : Option String) : Except PyErr Conversation :=
  firstYield (offsetsOfArg offset) search tag 1 convs.reverse

/-- The directory walk of `find_log` over the chain
`start_dir, parent, ..., root` (the parents of the resolved log path):
returns the index of the first directory holding the log file, else
FileNotFoundError. -/
def findLogLoop : List Bool → Except PyErr Nat
  | [] => .error .fileNotFound
  | b :: rest => if b then .ok 0 else (findLogLoop rest).map (· + 1)

/-- The function `find_log`: a non-directory start path is returned
directly (`none`); for a directory, the ancestor chain is searched and
the first hit returned (`some index`). -/
def find_log (startIsDir : Bool) (haveLog : List Bool) :
    Except PyErr (Option Nat) :=
  if ¬ startIsDir then .ok none
  else (findLogLoop haveLog).map some

/-! ## Cost calculator (cli.py conversation_cost) -/

/-- Per-model pricing record, prices as exact rationals (the Python code
holds them as float-convertible strings). -/
structure Pricing where
  prompt : Rat
  completion : Rat
deriving DecidableEq, Repr

/-- Lookup in the model-id → pricing table built from `get_models()`. -/
def lookupPrice (table : List (String × Pricing)) (m : String) :
    Option Pricing :=
  (table.find? (fun p => p.1 = m)).map Prod.snd

/-- Python `s.split(sep)` over a character sequence (one separator
character, as used with the dash). -/
def splitOnChar (sep : Char) : List Char → List (List Char)
  | [] => [[]]
  | c :: rest =>
    let r := splitOnChar sep rest
    if c = sep then [] :: r
    else
      match r with
      | [] => [[c]]
      | g :: gs => (c :: g) :: gs

/-- The fallback key `"-".join(model.split("-")[:-1])`: the model id with
its trailing dash-separated component removed. -/
def stripVersionSuffix (m : String) : String :=
  String.intercalate "-"
    (((splitOnChar '-' m.toList).map (fun cs => String.mk cs)).dropLast)

/-- Coercion of a JSON token count to a number, as Python multiplication
by a float accepts ints and bools. -/
def asNumber : JsonVal → Except PyErr Int
  | .num n => .ok n
  | .bool b => .ok (if b then 1 else 0)
  | _ => .error .typeError

/-- The function `conversation_cost`: 0 for a falsy usage; otherwise the
model id is read from the completion snapshot, the pricing record resolved
by exact id, then version-stripped id, then the "openrouter/"-prefixed id
(KeyError when all three miss), and the cost is
prompt price times prompt tokens plus completion price times completion
tokens, with no further scaling. -/
def conversation_cost (table : List (String × Pricing)) (c : Conversation) :
    Except PyErr Rat := do
  match c.usage with
  | none => pure 0
  | some u =>
    if ¬ pyTruthy u then
      pure 0
    else do
      let completionV ←
        match c.completion with
        | some v => pure v
        | none => Except.error .typeError
      let modelV ← pySubscript completionV "model"
      let m ←
        match modelV with
        | .str s => pure s
        | _ => Except.error .attributeError
      let price ←
        match lookupPrice table m with
        | some p => pure p
        | none =>
          match lookupPrice table (stripVersionSuffix m) with
          | some p => pure p
          | none =>
            match lookupPrice table ("openrouter/" ++ m) with
            | some p => pure p
            | none => Except.error .keyError
      let ptJson ← pySubscript u "prompt_tokens"
      let pt ← asNumber ptJson
      let ctJson ← pySubscript u "completion_tokens"
      let ct ← asNumber ctJson
      pure (price.prompt * (pt : Rat) + price.completion * (ct : Rat))

/-! ## Spec-side vocabulary

Definitions below follow the wording of the specification, to be compared
with the source-derived definitions above. -/

/-- Concatenation of a list of strings in order. -/
def concatStrs : List String → String
  | [] => ""
  | s :: rest => s ++ concatStrs rest

/-- The non-empty content deltas of a fragment sequence, in arrival
order. -/
def nonEmptyDeltas (chunks : List Chunk) : List String :=
  chunks.filterMap (fun c =>
    match c.content with
    | some s => if s = "" then none else some s
    | none => none)

/-- First-wins choice between two optional values. -/
def optFirst {α : Type} : Option α → Option α → Option α
  | some a, _ => some a
  | none, b => b

/-- The first present value in a list of optional values (the value taken
from the first fragment carrying the field). -/
def firstSome {α : Type} : List (Option α) → Option α
  | [] => none
  | o :: rest => optFirst o (firstSome rest)

/-! ## Lemmas about the streaming accumulator -/

theorem optFirst_assoc {α : Type} (a b c : Option α) :
    optFirst (optFirst a b) c = optFirst a (optFirst b c) := by
  cases a <;> cases b <;> rfl

theorem optFirst_none_right {α : Type} (a : Option α) :
    optFirst a none = a := by
  cases a <;> rfl

theorem concatStrs_append (xs ys : List String) :
    concatStrs (xs ++ ys) = concatStrs xs ++ concatStrs ys := by
  induction xs with
  | nil => simp [concatStrs]
  | cons x rest ih => simp [concatStrs, ih, String.append_assoc]

theorem nonEmptyDeltas_cons (c : Chunk) (cs : List Chunk) :
    nonEmptyDeltas (c :: cs) = nonEmptyDeltas [c] ++ nonEmptyDeltas cs := by
  obtain ⟨co, ci, cc, cm⟩ := c
  cases co with
  | none => simp [nonEmptyDeltas]
  | some s => by_cases hs : s = "" <;> simp [nonEmptyDeltas, hs]

theorem stream_step_eq (st : StreamState) (c : Chunk) :
    stream_step st c =
      ⟨st.accumulated_content ++ concatStrs (nonEmptyDeltas [c]),
       optFirst st.id c.id,
       optFirst st.created c.created,
       optFirst st.model c.model,
       st.callback_trace ++ nonEmptyDeltas [c]⟩ := by
  obtain ⟨co, ci, cc, cm⟩ := c
  obtain ⟨a, i, r, m, t⟩ := st
  cases co with
  | none =>
    cases i <;> cases r <;> cases m <;>
      simp [stream_step, nonEmptyDeltas, optFirst, concatStrs]
  | some s =>
    by_cases hs : s = "" <;>
      cases i <;> cases r <;> cases m <;>
        simp [stream_step, nonEmptyDeltas, optFirst, concatStrs, hs]

theorem stream_loop_chunks (chunks : List Chunk) (st : StreamState) :
    stream_loop (chunks.map StreamEvent.chunk) st =
      ⟨st.accumulated_content ++ concatStrs (nonEmptyDeltas chunks),
       optFirst st.id (firstSome (chunks.map Chunk.id)),
       optFirst st.created (firstSome (chunks.map Chunk.created)),
       optFirst st.model (firstSome (chunks.map Chunk.model)),
       st.callback_trace ++ nonEmptyDeltas chunks⟩ := by
  induction chunks generalizing st with
  | nil =>
    obtain ⟨a, i, r, m, t⟩ := st
    simp [stream_loop, nonEmptyDeltas, firstSome, concatStrs,
      optFirst_none_right]
  | cons c cs ih =>
    have hstep : stream_loop (List.map StreamEvent.chunk (c :: cs)) st =
        stream_loop (cs.map StreamEvent.chunk) (stream_step st c) := rfl
    rw [hstep, ih, stream_step_eq]
    simp [nonEmptyDeltas_cons c cs, concatStrs_append, firstSome,
      optFirst_assoc, String.append_assoc]

theorem stream_loop_stops_at_cancel (chunks : List Chunk)
    (rest : List StreamEvent) (st : StreamState) :
    stream_loop (chunks.map StreamEvent.chunk ++
      StreamEvent.cancelled :: rest) st =
      stream_loop (chunks.map StreamEvent.chunk) st := by
  induction chunks generalizing st with
  | nil => rfl
  | cons c cs ih => exact ih (stream_step st c)

/-- C2: on every finite fragment sequence the accumulator returns exactly
one response object whose single choice carries the concatenation of the
non-empty content deltas in arrival order under role assistant with the
fixed finish reason stop, whose id/created/model are taken first-wins from
the first fragment carrying each field, and whose callback trace lists the
non-empty deltas once each in arrival order; in particular the fragments
Hel, lo, empty with a model only on the first yield content Hello, the
first fragment's model, and callback calls Hel then lo. -/
theorem accumulate_streaming_spec :
    (∀ chunks : List Chunk,
      accumulate_streaming_response (chunks.map StreamEvent.chunk) =
        .ok ({ object := "text_completion"
               usage := none
               choices := [{ finish_reason := "stop"
                             index := 0
                             text := concatStrs (nonEmptyDeltas chunks)
                             message := { role := "assistant"
                                          content :=
                                            concatStrs
                                              (nonEmptyDeltas chunks) } }]
               id := firstSome (chunks.map Chunk.id)
               created := firstSome (chunks.map Chunk.created)
               model := firstSome (chunks.map Chunk.model) },
             nonEmptyDeltas chunks))
  ∧ accumulate_streaming_response
      ([⟨some "Hel", none, none, some "m1"⟩,
        ⟨some "lo", none, none, none⟩,
        ⟨none, none, none, none⟩].map StreamEvent.chunk) =
      .ok ({ object := "text_completion"
             usage := none
             choices := [{ finish_reason := "stop"
                           index := 0
                           text := "Hello"
                           message := { role := "assistant"
                                        content := "Hello" } }]
             id := none
             created := none
             model := some "m1" },
           ["Hel", "lo"]) := by
  constructor
  · intro chunks
    unfold accumulate_streaming_response
    rw [stream_loop_chunks]
    simp [finalizeResponse, initStreamState, optFirst, String.empty_append]
  · rfl

/-- C3: a cancellation signal arriving after any prefix of the fragments
does not propagate a failure: the accumulator stops consuming and returns
the response assembled from exactly the fragments consumed so far; in
particular cancelling after the first fragment of Hel, lo, empty yields
content Hel with no error. -/
theorem accumulate_cancellation_spec (consumed : List Chunk)
    (rest : List StreamEvent) :
    accumulate_streaming_response
        (consumed.map StreamEvent.chunk ++ StreamEvent.cancelled :: rest) =
      accumulate_streaming_response (consumed.map StreamEvent.chunk)
  ∧ (∃ resp trace,
      accumulate_streaming_response
          (consumed.map StreamEvent.chunk ++
            StreamEvent.cancelled :: rest) =
        Except.ok (resp, trace) ∧
      resp.choices.map (fun ch => ch.message.content) =
        [concatStrs (nonEmptyDeltas consumed)])
  ∧ accumulate_streaming_response
      [StreamEvent.chunk ⟨some "Hel", none, none, some "m1"⟩,
       StreamEvent.cancelled,
       StreamEvent.chunk ⟨some "lo", none, none, none⟩,
       StreamEvent.chunk ⟨none, none, none, none⟩] =
      .ok ({ object := "text_completion"
             usage := none
             choices := [{ finish_reason := "stop"
                           index := 0
                           text := "Hel"
                           message := { role := "assistant"
                                        content := "Hel" } }]
             id := none
             created := none
             model := some "m1" },
           ["Hel"]) := by
  have habs : accumulate_streaming_response
      (consumed.map StreamEvent.chunk ++ StreamEvent.cancelled :: rest) =
      accumulate_streaming_response (consumed.map StreamEvent.chunk) := by
    unfold accumulate_streaming_response
    rw [stream_loop_stops_at_cancel]
  refine ⟨habs, ?_, ?_⟩
  · refine ⟨finalizeResponse
        (stream_loop (consumed.map StreamEvent.chunk) initStreamState),
      (stream_loop (consumed.map StreamEvent.chunk)
        initStreamState).callback_trace, ?_, ?_⟩
    · rw [habs]
      rfl
    · rw [stream_loop_chunks]
      simp [finalizeResponse, initStreamState, String.empty_append]
  · rfl

/-- C1 counterexample: on a conversation whose last tag is the
personality-marked tag caret-p, the claim requires the clone's tags to be
exactly that one tag, but `clone` drops it and returns empty tags. -/
theorem clone_personality_tag_cex :
    is_personality "^p" = true
  ∧ (Conversation.clone
      { messages := [⟨"user", "hi"⟩]
        plugins := []
        tags := ["^p"]
        model := none
        usage := none
        completion := none
        timestamp := none } none).tags ≠ ["^p"]
  ∧ (Conversation.clone
      { messages := [⟨"user", "hi"⟩]
        plugins := []
        tags := ["^p"]
        model := none
        usage := none
        completion := none
        timestamp := none } none).tags = [] := by
  refine ⟨rfl, ?_, rfl⟩
  decide

/-- C1 (amended): `clone` yields empty tags when the original's tags are
empty or the original's last tag is personality-marked, and exactly the
one-element list of the last tag when that tag is not personality-marked;
messages, plugins and usage are carried over and the cached completion
snapshot is cleared. -/
theorem clone_spec (c : Conversation) (m : Option String) :
    (c.tags = [] → (c.clone m).tags = [])
  ∧ (∀ t, c.tags.getLast? = some t → is_personality t = true →
      (c.clone m).tags = [])
  ∧ (∀ t, c.tags.getLast? = some t → is_personality t = false →
      (c.clone m).tags = [t])
  ∧ (c.clone m).messages = c.messages
  ∧ (c.clone m).plugins = c.plugins
  ∧ (c.clone m).usage = c.usage
  ∧ (c.clone m).completion = none := by
  refine ⟨?_, ?_, ?_, rfl, rfl, rfl, rfl⟩
  · intro h
    simp [Conversation.clone, h]
  · intro t ht hp
    simp [Conversation.clone, ht, hp]
  · intro t ht hp
    simp [Conversation.clone, ht, hp]

/-- Witness for C1 (amended): a conversation whose last tag is the plain
tag x clones to tags exactly x. -/
theorem clone_spec_witness :
    (Conversation.clone
      { messages := [⟨"user", "q"⟩]
        plugins := ["p1"]
        tags := ["x"]
        model := none
        usage := none
        completion := none
        timestamp := none } none).tags = ["x"] :=
  (clone_spec
    ⟨[⟨"user", "q"⟩], ["p1"], ["x"], none, none, none, none⟩
    none).2.2.1 "x" (by decide) (by decide)

/-! ## Migration lemmas -/

/-- Whether a computation raised. -/
def isErr {α : Type} : Except PyErr α → Bool
  | .error _ => true
  | .ok _ => false

/-- A log file is version-markerless (legacy) when its first line does not
carry a non-null version value. -/
def isMarkerless : List JsonVal → Bool
  | [] => false
  | first :: _ =>
    match first with
    | .obj _ => isNull (objGetD first "version" .null)
    | _ => true

/-- A legacy entry with a structurally bad field, in the amended sense:
messages or tags present and not a sequence, completion present, truthy
and not a mapping, or usage present, non-null and not a mapping. -/
def BadEntryShape (e : JsonVal) : Prop :=
  (∃ v, objGet e "messages" = some v ∧ isList v = false)
  ∨ (∃ v, objGet e "tags" = some v ∧ isList v = false)
  ∨ (∃ v, objGet e "completion" = some v ∧ pyTruthy v = true ∧
      isDict v = false)
  ∨ (∃ v, objGet e "usage" = some v ∧ isNull v = false ∧ isDict v = false)

theorem pySubscript_ok_iff (e : JsonVal) (k : String) (v : JsonVal) :
    pySubscript e k = .ok v ↔ objGet e k = some v := by
  cases e with
  | obj fs =>
    cases h : List.find? (fun p => p.1 = k) fs with
    | none => simp [pySubscript, objGet, h]
    | some p =>
      simp only [pySubscript, objGet, h, Option.map_some']
      constructor
      · intro hv
        cases hv
        rfl
      · intro hv
        cases hv
        rfl
  | null => simp [pySubscript, objGet]
  | bool b => simp [pySubscript, objGet]
  | num n => simp [pySubscript, objGet]
  | str s => simp [pySubscript, objGet]
  | arr xs => simp [pySubscript, objGet]

theorem migUsage_ok_shape (u u1 : JsonVal) (h : migUsage u = .ok u1)
    (h1 : isDictOrNull u1 = true) : isDictOrNull u = true := by
  cases u with
  | null => rfl
  | obj fs => rfl
  | bool b =>
    cases b with
    | false =>
      simp [migUsage, pyTruthy, pure, Except.pure] at h
      subst h
      simp [isDictOrNull, isDict, isNull] at h1
    | true =>
      simp [migUsage, pyTruthy, pyIn, Bind.bind, Except.bind] at h
  | num n =>
    by_cases hn : n = 0
    · subst hn
      simp [migUsage, pyTruthy, pure, Except.pure] at h
      subst h
      simp [isDictOrNull, isDict, isNull] at h1
    · simp [migUsage, pyTruthy, hn, pyIn, Bind.bind, Except.bind] at h
  | str s =>
    by_cases hs : s = ""
    · subst hs
      simp [migUsage, pyTruthy, pure, Except.pure] at h
      subst h
      simp [isDictOrNull, isDict, isNull] at h1
    · simp only [migUsage, pyTruthy] at h
      rw [if_pos (by simpa using hs)] at h
      simp only [pyIn, Bind.bind, Except.bind] at h
      by_cases hc : strContains s "request_tokens" = true
      · simp [hc, pySubscript, Bind.bind, Except.bind] at h
      · simp only [Bool.not_eq_true] at hc
        simp [hc, pure, Except.pure] at h
        subst h
        simp [isDictOrNull, isDict, isNull] at h1
  | arr xs =>
    cases xs with
    | nil =>
      simp [migUsage, pyTruthy, pure, Except.pure] at h
      subst h
      simp [isDictOrNull, isDict, isNull] at h1
    | cons x rest =>
      simp only [migUsage, pyTruthy] at h
      rw [if_pos (by simp)] at h
      simp only [pyIn, Bind.bind, Except.bind] at h
      by_cases hc : (x :: rest).any
          (fun v => match v with
            | .str s => s = "request_tokens"
            | _ => false) = true
      · simp [hc, pySubscript, Bind.bind, Except.bind] at h
      · simp only [Bool.not_eq_true] at hc
        simp [hc, pure, Except.pure] at h
        subst h
        simp [isDictOrNull, isDict, isNull] at h1

theorem find?_setKeyList (fs : List (String × JsonVal)) (k : String)
    (v : JsonVal) :
    List.find? (fun p => p.1 = k) (setKeyList fs k v) = some (k, v) := by
  induction fs with
  | nil => simp [setKeyList]
  | cons p rest ih =>
    by_cases hp : p.1 = k
    · simp [setKeyList, hp]
    · simp [setKeyList, hp, ih]

theorem find?_filter_imp {α : Type} (l : List α) (px qx : α → Bool)
    (h : ∀ x, px x = true → qx x = true) :
    List.find? px (l.filter qx) = List.find? px l := by
  induction l with
  | nil => rfl
  | cons a l ih =>
    by_cases hq : qx a = true
    · by_cases hpa : px a = true
      · simp [List.filter_cons, hq, List.find?_cons, hpa]
      · rw [Bool.not_eq_true] at hpa
        simp [List.filter_cons, hq, List.find?_cons, hpa, ih]
    · have hpa : px a = false := by
        cases hpx : px a with
        | false => rfl
        | true => exact absurd (h a hpx) hq
      rw [Bool.not_eq_true] at hq
      simp [List.filter_cons, hq, List.find?_cons, hpa, ih]

theorem migUsage_obj_rename (fsu : List (String × JsonVal)) (v : JsonVal)
    (h : objGet (.obj fsu) "request_tokens" = some v) :
    migUsage (.obj fsu) =
      .ok (.obj ((setKeyList fsu "prompt_tokens" v).filter
        (fun p => ¬ p.1 = "request_tokens"))) := by
  obtain ⟨p, hp, hpv⟩ : ∃ p,
      List.find? (fun q => q.1 = "request_tokens") fsu = some p ∧ p.2 = v := by
    simp only [objGet] at h
    cases hf : List.find? (fun q => q.1 = "request_tokens") fsu with
    | none => rw [hf] at h; simp at h
    | some p =>
      rw [hf] at h
      exact ⟨p, rfl, by simpa using h⟩
  have hmem := List.mem_of_find?_eq_some hp
  have hpred := List.find?_some hp
  have hne : fsu.isEmpty = false := by
    cases fsu with
    | nil => simp at hmem
    | cons a l => rfl
  have hin : fsu.any (fun q => q.1 = "request_tokens") = true :=
    List.any_eq_true.mpr ⟨p, hmem, hpred⟩
  simp [migUsage, pyTruthy, hne, pyIn, hin, pySubscript, hp, hpv, pySetKey,
    pyDelKey, Bind.bind, Except.bind, pure, Except.pure]

theorem renamed_usage_fields (fsu : List (String × JsonVal)) (v : JsonVal) :
    objGet (.obj ((setKeyList fsu "prompt_tokens" v).filter
      (fun p => ¬ p.1 = "request_tokens"))) "prompt_tokens" = some v
  ∧ objGet (.obj ((setKeyList fsu "prompt_tokens" v).filter
      (fun p => ¬ p.1 = "request_tokens"))) "request_tokens" = none := by
  constructor
  · simp only [objGet]
    rw [show (fun p : String × JsonVal => decide ¬ p.1 = "request_tokens") =
        (fun p : String × JsonVal => !decide (p.1 = "request_tokens")) by
      funext p
      by_cases hp : p.1 = "request_tokens" <;> simp [hp]]
    rw [find?_filter_imp _ _ _ (fun x hx => by
      have : x.1 = "prompt_tokens" := by simpa using hx
      simp [this])]
    rw [find?_setKeyList]
    rfl
  · simp only [objGet]
    rw [List.find?_eq_none.mpr]
    · rfl
    · intro x hx
      have := (List.mem_filter.mp hx).2
      simpa using this

theorem migTimestamp_of_truthy (isoOf : Int → String) (now : String)
    (dataTs comp : JsonVal) (h : pyTruthy dataTs = true) :
    migTimestamp isoOf now dataTs comp = .ok dataTs := by
  simp [migTimestamp, h, pure, Except.pure]

theorem migTimestamp_of_no_source (isoOf : Int → String) (now : String)
    (dataTs comp : JsonVal) (h : pyTruthy dataTs = false)
    (h2 : pyTruthy comp = false) :
    migTimestamp isoOf now dataTs comp = .ok (.str now) := by
  simp [migTimestamp, h, h2, pure, Except.pure]

theorem migTimestamp_of_created (isoOf : Int → String) (now : String)
    (dataTs : JsonVal) (cf : List (String × JsonVal)) (n : Int)
    (h : pyTruthy dataTs = false) (h2 : pyTruthy (JsonVal.obj cf) = true)
    (h3 : objGetD (JsonVal.obj cf) "created" .null = .num n) :
    migTimestamp isoOf now dataTs (.obj cf) =
      .ok (pyOr (.str (isoOf n)) (.str now)) := by
  simp [migTimestamp, h, h2, h3, pure, Except.pure, Bind.bind, Except.bind]

/-- Inversion of a successful Except bind. -/
theorem bind_ok_inv {α β : Type} (x : Except PyErr α)
    (f : α → Except PyErr β) (b : β) (h : x >>= f = .ok b) :
    ∃ a, x = .ok a ∧ f a = .ok b := by
  cases x with
  | error e => exact Except.noConfusion h
  | ok a => exact ⟨a, rfl, h⟩

/-- Inversion of a passing assert. -/
theorem pyAssert_ok_inv (b : Bool) (u : Unit) (h : pyAssert b = .ok u) :
    b = true := by
  cases b with
  | true => rfl
  | false => exact Except.noConfusion h

/-- The converted fields when `convert_entry` succeeds: inversion of the
do-chain, recording what each intermediate step produced and the shape
facts established by the asserts. -/
theorem convert_entry_ok_inv (isoOf : Int → String) (now : String)
    (e out : JsonVal) (h : convert_entry isoOf now e = .ok out) :
    ∃ ms u0 u1 ts,
      objGet e "messages" = some ms ∧
      objGet e "usage" = some u0 ∧
      migUsage u0 = .ok u1 ∧
      migTimestamp isoOf now (objGetD e "timestamp" .null)
        (pyOr (objGetD e "completion" .null)
          (objGetD e "response" .null)) = .ok ts ∧
      isList ms = true ∧
      isList (objGetD e "tags" (.arr [])) = true ∧
      isDictOrNull (pyOr (objGetD e "completion" .null)
        (objGetD e "response" .null)) = true ∧
      isDictOrNull u1 = true ∧
      out = .obj [("messages", ms),
                  ("completion", pyOr (objGetD e "completion" .null)
                    (objGetD e "response" .null)),
                  ("tags", objGetD e "tags" (.arr [])),
                  ("usage", u1),
                  ("timestamp", ts),
                  ("plugins", objGetD e "plugins" (.arr [])),
                  ("model", objGetD e "model" .null)] := by
  cases e with
  | null => simp [convert_entry] at h
  | bool b => simp [convert_entry] at h
  | num n => simp [convert_entry] at h
  | str s => simp [convert_entry] at h
  | arr xs => simp [convert_entry] at h
  | obj fs =>
    simp only [convert_entry] at h
    obtain ⟨ms, hm, h⟩ := bind_ok_inv _ _ _ h
    obtain ⟨u0, hu, h⟩ := bind_ok_inv _ _ _ h
    obtain ⟨u1, hmu, h⟩ := bind_ok_inv _ _ _ h
    obtain ⟨ts, hts, h⟩ := bind_ok_inv _ _ _ h
    obtain ⟨uA, hA, h⟩ := bind_ok_inv _ _ _ h
    obtain ⟨uB, hB, h⟩ := bind_ok_inv _ _ _ h
    obtain ⟨uC, hC, h⟩ := bind_ok_inv _ _ _ h
    obtain ⟨uD, hD, h⟩ := bind_ok_inv _ _ _ h
    have hout : JsonVal.obj [("messages", ms),
        ("completion", pyOr (objGetD (JsonVal.obj fs) "completion" .null)
          (objGetD (JsonVal.obj fs) "response" .null)),
        ("tags", objGetD (JsonVal.obj fs) "tags" (.arr [])),
        ("usage", u1),
        ("timestamp", ts),
        ("plugins", objGetD (JsonVal.obj fs) "plugins" (.arr [])),
        ("model", objGetD (JsonVal.obj fs) "model" .null)] = out :=
      Except.ok.inj h
    exact ⟨ms, u0, u1, ts, (pySubscript_ok_iff _ _ _).mp hm,
      (pySubscript_ok_iff _ _ _).mp hu, hmu, hts,
      pyAssert_ok_inv _ _ hA, pyAssert_ok_inv _ _ hB,
      pyAssert_ok_inv _ _ hC, pyAssert_ok_inv _ _ hD, hout.symm⟩

theorem mapExcept_ok_mem {α β : Type} (f : α → Except PyErr β) (l : List α)
    (outs : List β) (h : mapExcept f l = .ok outs) :
    ∀ a ∈ l, ∃ out, out ∈ outs ∧ f a = .ok out := by
  induction l generalizing outs with
  | nil => intro a ha; cases ha
  | cons x xs ih =>
    intro a ha
    simp only [mapExcept] at h
    obtain ⟨b, hb, h⟩ := bind_ok_inv _ _ _ h
    obtain ⟨bs, hbs, h⟩ := bind_ok_inv _ _ _ h
    have houts : b :: bs = outs := Except.ok.inj h
    rcases List.mem_cons.mp ha with rfl | hmem
    · exact ⟨b, by rw [← houts]; exact List.mem_cons_self b bs, hb⟩
    · obtain ⟨out, ho, hf⟩ := ih bs hbs a hmem
      exact ⟨out, by rw [← houts]; exact List.mem_cons_of_mem b ho, hf⟩

theorem mapExcept_error_of_mem {α β : Type} (f : α → Except PyErr β)
    (l : List α) (a : α) (ha : a ∈ l) (he : isErr (f a) = true) :
    isErr (mapExcept f l) = true := by
  induction l with
  | nil => cases ha
  | cons x xs ih =>
    rcases List.mem_cons.mp ha with rfl | hmem
    · cases hfx : f a with
      | error e1 => simp [mapExcept, hfx, Bind.bind, Except.bind, isErr]
      | ok b => rw [hfx] at he; simp [isErr] at he
    · cases hfx : f x with
      | error e1 => simp [mapExcept, hfx, Bind.bind, Except.bind, isErr]
      | ok b =>
        cases hxs : mapExcept f xs with
        | error e2 =>
          simp [mapExcept, hfx, hxs, Bind.bind, Except.bind, isErr]
        | ok bs =>
          have := ih hmem
          rw [hxs] at this
          simp [isErr] at this

/-- A structurally bad legacy entry makes its conversion raise. -/
theorem convert_entry_err_of_bad (isoOf : Int → String) (now : String)
    (e : JsonVal) (hbad : BadEntryShape e) :
    isErr (convert_entry isoOf now e) = true := by
  cases hc : convert_entry isoOf now e with
  | error e1 => rfl
  | ok out =>
    exfalso
    obtain ⟨ms, u0, u1, ts, hm, hu, hmu, hts, hA, hB, hC, hD, hout⟩ :=
      convert_entry_ok_inv _ _ _ _ hc
    rcases hbad with ⟨v, hgv, hbv⟩ | ⟨v, hgv, hbv⟩ | ⟨v, hgv, htv, hdv⟩ |
      ⟨v, hgv, hnn, hnd⟩
    · rw [hgv] at hm
      cases hm
      rw [hA] at hbv
      exact Bool.noConfusion hbv
    · have : objGetD e "tags" (.arr []) = v := by
        simp [objGetD, hgv]
      rw [this] at hB
      rw [hB] at hbv
      exact Bool.noConfusion hbv
    · have hcd : objGetD e "completion" .null = v := by
        simp [objGetD, hgv]
      rw [hcd] at hC
      rw [pyOr, if_pos htv] at hC
      cases v with
      | null => simp [pyTruthy] at htv
      | obj cf => simp [isDict] at hdv
      | bool b => simp [isDictOrNull] at hC
      | num n => simp [isDictOrNull] at hC
      | str s => simp [isDictOrNull] at hC
      | arr xs => simp [isDictOrNull] at hC
    · rw [hgv] at hu
      cases hu
      have hsh := migUsage_ok_shape _ _ hmu hD
      cases u0 with
      | null => simp [isNull] at hnn
      | obj cf => simp [isDict] at hnd
      | bool b => simp [isDictOrNull] at hsh
      | num n => simp [isDictOrNull] at hsh
      | str s => simp [isDictOrNull] at hsh
      | arr xs => simp [isDictOrNull] at hsh

/-- A concrete legacy entry whose completion is present but a falsy
non-mapping (an empty array) and whose usage is present but null. -/
def legacyFalsyCompletionEntry : JsonVal :=
  .obj [("messages", .arr []),
        ("usage", .null),
        ("tags", .arr []),
        ("completion", .arr []),
        ("timestamp", .str "T0")]

/-- C4 counterexample: a version-markerless log whose single entry has a
completion value that is present but not a mapping (an empty array) and a
usage value that is present but not a mapping (null) is migrated
successfully: the read does not fail, the file is rewritten and a backup
is created, contradicting the claim that such input aborts the migration
before any write. -/
theorem migration_bad_shape_cex :
    isMarkerless [legacyFalsyCompletionEntry] = true
  ∧ objGet legacyFalsyCompletionEntry "completion" = some (.arr [])
  ∧ isDict (.arr []) = false
  ∧ objGet legacyFalsyCompletionEntry "usage" = some .null
  ∧ isDict .null = false
  ∧ (conversation_log (fun n => toString n) "NOW"
      ⟨[legacyFalsyCompletionEntry], none⟩).1 =
      .ok [.obj [("messages", .arr []),
                 ("completion", .null),
                 ("tags", .arr []),
                 ("usage", .null),
                 ("timestamp", .str "T0"),
                 ("plugins", .arr []),
                 ("model", .null)]]
  ∧ (conversation_log (fun n => toString n) "NOW"
      ⟨[legacyFalsyCompletionEntry], none⟩).2.backup =
      some [legacyFalsyCompletionEntry] := by
  exact ⟨rfl, rfl, rfl, rfl, rfl, rfl, rfl⟩

/-- C4 (amended): for every legacy (version-markerless) log file
containing an entry whose messages or tags value is present and not a
sequence, or whose completion value is present, truthy and not a mapping,
or whose usage value is present, non-null and not a mapping, reading the
log fails the whole migration before any write: the read raises and the
on-disk state (log file and absence of a backup) is left unchanged. -/
theorem migration_aborts_on_bad_entry (isoOf : Int → String) (now : String)
    (fs : LogFS) (e : JsonVal) (h1 : e ∈ fs.log) (h2 : BadEntryShape e)
    (h3 : isMarkerless fs.log = true) :
    isErr (conversation_log isoOf now fs).1 = true
  ∧ (conversation_log isoOf now fs).2 = fs := by
  have hconv : isErr (convert_log_pre_0_4 isoOf now fs.log) = true :=
    mapExcept_error_of_mem _ _ _ h1 (convert_entry_err_of_bad isoOf now e h2)
  obtain ⟨log, backup⟩ := fs
  cases log with
  | nil => simp [isMarkerless] at h3
  | cons first rest =>
    cases first with
    | obj ffs =>
      have hnull : isNull (objGetD (JsonVal.obj ffs) "version" .null) = true := by
        simpa [isMarkerless] using h3
      cases hcv : convert_log_pre_0_4 isoOf now (JsonVal.obj ffs :: rest) with
      | error er => simp [conversation_log, hnull, hcv, isErr]
      | ok ls =>
        have : isErr (convert_log_pre_0_4 isoOf now
            (JsonVal.obj ffs :: rest)) = true := hconv
        rw [hcv] at this
        simp [isErr] at this
    | null => simp [conversation_log, isErr]
    | bool b => simp [conversation_log, isErr]
    | num n => simp [conversation_log, isErr]
    | str s => simp [conversation_log, isErr]
    | arr xs => simp [conversation_log, isErr]

/-- Witness for C4 (amended): a one-entry legacy log whose messages value
is a string aborts the read with the on-disk state unchanged. -/
theorem migration_aborts_witness :
    isErr (conversation_log (fun n => toString n) "NOW"
      ⟨[.obj [("messages", .str "nope"), ("usage", .null),
              ("tags", .arr [])]], none⟩).1 = true
  ∧ (conversation_log (fun n => toString n) "NOW"
      ⟨[.obj [("messages", .str "nope"), ("usage", .null),
              ("tags", .arr [])]], none⟩).2 =
      ⟨[.obj [("messages", .str "nope"), ("usage", .null),
              ("tags", .arr [])]], none⟩ :=
  migration_aborts_on_bad_entry (fun n => toString n) "NOW"
    ⟨[.obj [("messages", .str "nope"), ("usage", .null),
            ("tags", .arr [])]], none⟩
    (.obj [("messages", .str "nope"), ("usage", .null), ("tags", .arr [])])
    (List.mem_singleton.mpr rfl)
    (Or.inl ⟨.str "nope", rfl, rfl⟩)
    rfl

/-- Key lookups on a converted entry, whose keys are fixed. -/
theorem converted_getters (ms cv tv uv tsv pv mv : JsonVal) :
    objGetD (JsonVal.obj [("messages", ms), ("completion", cv),
      ("tags", tv), ("usage", uv), ("timestamp", tsv), ("plugins", pv),
      ("model", mv)]) "completion" .null = cv
  ∧ objGetD (JsonVal.obj [("messages", ms), ("completion", cv),
      ("tags", tv), ("usage", uv), ("timestamp", tsv), ("plugins", pv),
      ("model", mv)]) "tags" .null = tv
  ∧ objGetD (JsonVal.obj [("messages", ms), ("completion", cv),
      ("tags", tv), ("usage", uv), ("timestamp", tsv), ("plugins", pv),
      ("model", mv)]) "usage" .null = uv
  ∧ objGetD (JsonVal.obj [("messages", ms), ("completion", cv),
      ("tags", tv), ("usage", uv), ("timestamp", tsv), ("plugins", pv),
      ("model", mv)]) "timestamp" .null = tsv
  ∧ objGetD (JsonVal.obj [("messages", ms), ("completion", cv),
      ("tags", tv), ("usage", uv), ("timestamp", tsv), ("plugins", pv),
      ("model", mv)]) "plugins" .null = pv
  ∧ objGetD (JsonVal.obj [("messages", ms), ("completion", cv),
      ("tags", tv), ("usage", uv), ("timestamp", tsv), ("plugins", pv),
      ("model", mv)]) "model" .null = mv :=
  ⟨rfl, rfl, rfl, rfl, rfl, rfl⟩

/-- Field-level facts about one successfully converted legacy entry:
usage rename, completion or-else-response, timestamp backfill and
defaults. -/
theorem convert_entry_fields (isoOf : Int → String) (now : String)
    (e out : JsonVal) (hco : convert_entry isoOf now e = .ok out) :
    (∀ fsu v, objGet e "usage" = some (.obj fsu) →
      objGet (.obj fsu) "request_tokens" = some v →
      objGet (objGetD out "usage" .null) "prompt_tokens" = some v ∧
      objGet (objGetD out "usage" .null) "request_tokens" = none)
  ∧ objGetD out "completion" .null =
      pyOr (objGetD e "completion" .null) (objGetD e "response" .null)
  ∧ (pyTruthy (objGetD e "timestamp" .null) = true →
      objGetD out "timestamp" .null = objGetD e "timestamp" .null)
  ∧ (∀ cf n, pyTruthy (objGetD e "timestamp" .null) = false →
      pyOr (objGetD e "completion" .null) (objGetD e "response" .null) =
        .obj cf →
      pyTruthy (JsonVal.obj cf) = true →
      objGetD (JsonVal.obj cf) "created" .null = .num n →
      isoOf n ≠ "" →
      objGetD out "timestamp" .null = .str (isoOf n))
  ∧ (pyTruthy (objGetD e "timestamp" .null) = false →
      pyTruthy (pyOr (objGetD e "completion" .null)
        (objGetD e "response" .null)) = false →
      objGetD out "timestamp" .null = .str now)
  ∧ (objGet e "tags" = none → objGetD out "tags" .null = .arr [])
  ∧ (objGet e "plugins" = none → objGetD out "plugins" .null = .arr [])
  ∧ (objGet e "model" = none → objGetD out "model" .null = .null) := by
  obtain ⟨ms, u0, u1, ts, hm, hu, hmu, hts, hA, hB, hC, hD, hout⟩ :=
    convert_entry_ok_inv _ _ _ _ hco
  subst hout
  refine ⟨?_, ?_, ?_, ?_, ?_, ?_, ?_, ?_⟩
  · intro fsu v hfu hrt
    rw [hfu] at hu
    cases hu
    have hren := migUsage_obj_rename fsu v hrt
    rw [hren] at hmu
    have hu1 := Except.ok.inj hmu
    rw [(converted_getters _ _ _ _ _ _ _).2.2.1, ← hu1]
    exact renamed_usage_fields fsu v
  · exact (converted_getters _ _ _ _ _ _ _).1
  · intro htr
    rw [(converted_getters _ _ _ _ _ _ _).2.2.2.1]
    rw [migTimestamp_of_truthy isoOf now _ _ htr] at hts
    exact (Except.ok.inj hts).symm
  · intro cf n htr heq hcf hcr hne
    rw [(converted_getters _ _ _ _ _ _ _).2.2.2.1]
    rw [heq] at hts
    rw [migTimestamp_of_created isoOf now _ cf n htr hcf hcr] at hts
    have hpy : pyOr (.str (isoOf n)) (.str now) = .str (isoOf n) := by
      simp [pyOr, pyTruthy, hne]
    rw [hpy] at hts
    exact (Except.ok.inj hts).symm
  · intro htr hcr
    rw [(converted_getters _ _ _ _ _ _ _).2.2.2.1]
    rw [migTimestamp_of_no_source isoOf now _ _ htr hcr] at hts
    exact (Except.ok.inj hts).symm
  · intro hnone
    rw [(converted_getters _ _ _ _ _ _ _).2.1]
    simp [objGetD, hnone]
  · intro hnone
    rw [(converted_getters _ _ _ _ _ _ _).2.2.2.2.1]
    simp [objGetD, hnone]
  · intro hnone
    rw [(converted_getters _ _ _ _ _ _ _).2.2.2.2.2]
    simp [objGetD, hnone]

/-- C5: reading a well-formed legacy log migrates it: every entry is
converted to the current schema (usage request_tokens renamed to
prompt_tokens with no request_tokens key remaining, completion populated
from the completion key or else the legacy response key, a missing
timestamp backfilled from the completion's creation time when available
and else from the current wall-clock, tags/plugins/model defaulting when
missing), a backup copy of the original file is written, the file is
rewritten with the version header line first, and a subsequent read sees
the header and does not re-trigger the migration. -/
theorem migration_wellformed_spec (isoOf : Int → String) (now : String)
    (fs : LogFS) (ls : List JsonVal)
    (hleg : isMarkerless fs.log = true)
    (hok : convert_log_pre_0_4 isoOf now fs.log = .ok ls) :
    conversation_log isoOf now fs =
      (.ok ls, ⟨versionLine :: ls, some fs.log⟩)
  ∧ (∀ isoOf2 now2,
      conversation_log isoOf2 now2 ⟨versionLine :: ls, some fs.log⟩ =
        (.ok ls, ⟨versionLine :: ls, some fs.log⟩))
  ∧ (∀ e ∈ fs.log, ∃ out, out ∈ ls ∧ convert_entry isoOf now e = .ok out)
  ∧ (∀ e out, convert_entry isoOf now e = .ok out →
      (∀ fsu v, objGet e "usage" = some (.obj fsu) →
        objGet (.obj fsu) "request_tokens" = some v →
        objGet (objGetD out "usage" .null) "prompt_tokens" = some v ∧
        objGet (objGetD out "usage" .null) "request_tokens" = none)
      ∧ objGetD out "completion" .null =
          pyOr (objGetD e "completion" .null) (objGetD e "response" .null)
      ∧ (pyTruthy (objGetD e "timestamp" .null) = true →
          objGetD out "timestamp" .null = objGetD e "timestamp" .null)
      ∧ (∀ cf n, pyTruthy (objGetD e "timestamp" .null) = false →
          pyOr (objGetD e "completion" .null)
            (objGetD e "response" .null) = .obj cf →
          pyTruthy (JsonVal.obj cf) = true →
          objGetD (JsonVal.obj cf) "created" .null = .num n →
          isoOf n ≠ "" →
          objGetD out "timestamp" .null = .str (isoOf n))
      ∧ (pyTruthy (objGetD e "timestamp" .null) = false →
          pyTruthy (pyOr (objGetD e "completion" .null)
            (objGetD e "response" .null)) = false →
          objGetD out "timestamp" .null = .str now)
      ∧ (objGet e "tags" = none → objGetD out "tags" .null = .arr [])
      ∧ (objGet e "plugins" = none →
          objGetD out "plugins" .null = .arr [])
      ∧ (objGet e "model" = none → objGetD out "model" .null = .null)) := by
  refine ⟨?_, ?_, mapExcept_ok_mem _ _ _ hok, convert_entry_fields isoOf now⟩
  · obtain ⟨log, backup⟩ := fs
    cases log with
    | nil => simp [isMarkerless] at hleg
    | cons first rest =>
      have hfok : ∃ o, convert_entry isoOf now first = .ok o := by
        obtain ⟨o, _, hfo⟩ :=
          mapExcept_ok_mem _ _ _ hok first (List.mem_cons_self first rest)
        exact ⟨o, hfo⟩
      obtain ⟨ffs, rfl⟩ : ∃ ffs, first = JsonVal.obj ffs := by
        obtain ⟨o, ho⟩ := hfok
        obtain ⟨ms, _, _, _, hm, _⟩ := convert_entry_ok_inv _ _ _ _ ho
        cases first with
        | obj ffs => exact ⟨ffs, rfl⟩
        | null => simp [objGet] at hm
        | bool b => simp [objGet] at hm
        | num n => simp [objGet] at hm
        | str s => simp [objGet] at hm
        | arr xs => simp [objGet] at hm
      have hnull : isNull
          (objGetD (JsonVal.obj ffs) "version" .null) = true := by
        simpa [isMarkerless] using hleg
      simp [conversation_log, hnull, hok]
  · intro isoOf2 now2
    rfl

/-- Witness for C5: a one-entry legacy log with a request_tokens usage
field and a legacy response completion migrates to the current schema,
with the version header first and a backup of the original. -/
theorem migration_wellformed_witness :
    conversation_log (fun n => "ts" ++ toString n) "NOW"
      ⟨[.obj [("messages", .arr [.obj [("role", .str "user"),
                                       ("content", .str "q")]]),
              ("usage", .obj [("request_tokens", .num 3),
                              ("completion_tokens", .num 4),
                              ("total_tokens", .num 7)]),
              ("response", .obj [("created", .num 5)])]], none⟩ =
      (.ok [.obj [("messages", .arr [.obj [("role", .str "user"),
                                           ("content", .str "q")]]),
                  ("completion", .obj [("created", .num 5)]),
                  ("tags", .arr []),
                  ("usage", .obj [("completion_tokens", .num 4),
                                  ("total_tokens", .num 7),
                                  ("prompt_tokens", .num 3)]),
                  ("timestamp", .str "ts5"),
                  ("plugins", .arr []),
                  ("model", .null)]],
       ⟨versionLine ::
          [.obj [("messages", .arr [.obj [("role", .str "user"),
                                          ("content", .str "q")]]),
                 ("completion", .obj [("created", .num 5)]),
                 ("tags", .arr []),
                 ("usage", .obj [("completion_tokens", .num 4),
                                 ("total_tokens", .num 7),
                                 ("prompt_tokens", .num 3)]),
                 ("timestamp", .str "ts5"),
                 ("plugins", .arr []),
                 ("model", .null)]],
        some [.obj [("messages", .arr [.obj [("role", .str "user"),
                                             ("content", .str "q")]]),
                    ("usage", .obj [("request_tokens", .num 3),
                                    ("completion_tokens", .num 4),
                                    ("total_tokens", .num 7)]),
                    ("response", .obj [("created", .num 5)])]]⟩) :=
  (migration_wellformed_spec (fun n => "ts" ++ toString n) "NOW"
    ⟨[.obj [("messages", .arr [.obj [("role", .str "user"),
                                     ("content", .str "q")]]),
            ("usage", .obj [("request_tokens", .num 3),
                            ("completion_tokens", .num 4),
                            ("total_tokens", .num 7)]),
            ("response", .obj [("created", .num 5)])]], none⟩
    [.obj [("messages", .arr [.obj [("role", .str "user"),
                                    ("content", .str "q")]]),
           ("completion", .obj [("created", .num 5)]),
           ("tags", .arr []),
           ("usage", .obj [("completion_tokens", .num 4),
                           ("total_tokens", .num 7),
                           ("prompt_tokens", .num 3)]),
           ("timestamp", .str "ts5"),
           ("plugins", .arr []),
           ("model", .null)]]
    rfl rfl).1

/-! ## Search and selection lemmas -/

/-- Enumeration of a list with offsets counting upward from a start. -/
def enumFrom {α : Type} : Nat → List α → List (Nat × α)
  | _, [] => []
  | n, a :: l => (n, a) :: enumFrom (n + 1) l

/-- The question message of a conversation, per the spec: the
second-to-last message when at least two messages exist, else the last
message. -/
def questionOf (c : Conversation) : Option ChatMessage :=
  if c.messages.length ≥ 2 then c.messages.get? (c.messages.length - 2)
  else c.messages.getLast?

/-- The spec-side filter on an (offset, conversation) pair: offset
membership when a non-empty offset set is given, question-message
substring containment when a non-empty search term is given, exact tag
membership when a non-empty tag is given. -/
def searchSpecPred (offsets : List Nat) (search tag : Option String)
    (p : Nat × Conversation) : Bool :=
  (offsets.isEmpty || offsets.contains p.1)
  && (match search with
      | some s =>
        s == "" || (match questionOf p.2 with
                    | some q => strContains q.content s
                    | none => false)
      | none => true)
  && (match tag with
      | some t => t == "" || p.2.tags.contains t
      | none => true)

theorem questionOf_eq_code (c : Conversation) :
    questionOf c =
      (if c.messages.length > 1 then c.messages.get? (c.messages.length - 2)
       else c.messages.get? (c.messages.length - 1)) := by
  by_cases h : c.messages.length ≥ 2
  · rw [questionOf, if_pos h, if_pos (by omega)]
  · rw [questionOf, if_neg h, if_neg (by omega)]
    rw [List.getLast?_eq_getElem?, List.get?_eq_getElem?]

theorem contains_term_eq (c : Conversation) (s : String)
    (hmsg : c.messages ≠ []) :
    ∃ m, questionOf c = some m ∧
      c.contains_term s = .ok (strContains m.content s) := by
  have hlen : 0 < c.messages.length := List.length_pos.mpr hmsg
  rw [questionOf_eq_code]
  unfold Conversation.contains_term
  by_cases h : c.messages.length > 1
  · rw [if_pos h]
    cases hg : c.messages.get? (c.messages.length - 2) with
    | none =>
      have := List.get?_eq_none.mp hg
      omega
    | some m => exact ⟨m, rfl, rfl⟩
  · rw [if_neg h]
    cases hg : c.messages.get? (c.messages.length - 1) with
    | none =>
      have := List.get?_eq_none.mp hg
      omega
    | some m => exact ⟨m, rfl, rfl⟩

theorem search_step_ok (offsets : List Nat) (search tag : Option String)
    (idx : Nat) (c : Conversation) (hmsg : c.messages ≠ []) :
    search_step offsets search tag idx c =
      .ok (searchSpecPred offsets search tag (idx, c)) := by
  by_cases ho : ¬ offsets.isEmpty = true ∧ ¬ idx ∈ offsets
  · have hOp : (offsets.isEmpty || offsets.contains idx) = false := by
      obtain ⟨h1, h2⟩ := ho
      simp only [Bool.or_eq_false_iff]
      constructor
      · exact Bool.not_eq_true _ ▸ (by simpa using h1)
      · simpa using h2
    rw [search_step.eq_def, if_pos ho, searchSpecPred.eq_def]
    rw [hOp]
    simp [pure, Except.pure]
  · have hOp : (offsets.isEmpty || offsets.contains idx) = true := by
      rcases Decidable.not_and_iff_or_not.mp ho with h1 | h2
      · simp only [not_not] at h1
        simp [h1]
      · simp only [not_not] at h2
        simp [h2]
    rw [search_step.eq_def, if_neg ho, searchSpecPred.eq_def]
    rw [show ((idx, c).1) = idx from rfl, hOp]
    obtain ⟨m, hqm, hct⟩ := contains_term_eq c "" hmsg
    cases search with
    | none =>
      simp only [Bool.true_and]
      cases tag with
      | none => rfl
      | some t =>
        by_cases ht : t = ""
        · subst ht
          simp [Bind.bind, Except.bind, pure, Except.pure]
        · simp only [Bind.bind, Except.bind, pure, Except.pure]
          by_cases htm : t ∈ c.tags
          · simp [ht, htm]
          · simp [ht, htm]
    | some s =>
      by_cases hs : s = ""
      · subst hs
        simp only [Bind.bind, Except.bind, pure, Except.pure,
          Bool.true_and]
        cases tag with
        | none => simp
        | some t =>
          by_cases ht : t = ""
          · subst ht
            simp
          · by_cases htm : t ∈ c.tags
            · simp [ht, htm]
            · simp [ht, htm]
      · obtain ⟨m2, hqm2, hct2⟩ := contains_term_eq c s hmsg
        simp only [Bind.bind, Except.bind, pure, Except.pure, hs, hct2,
          hqm2, if_neg (by simpa using hs)]
        by_cases hcs : strContains m2.content s = true
        · simp only [hcs, Bool.not_true, Bool.false_eq_true, if_false,
            beq_iff_eq, hs]
          simp only [Bool.false_or, Bool.true_and]
          cases tag with
          | none => simp
          | some t =>
            by_cases ht : t = ""
            · subst ht
              simp
            · by_cases htm : t ∈ c.tags
              · simp [ht, htm]
              · simp [ht, htm]
        · have hcs2 : strContains m2.content s = false := by
            simpa using hcs
          simp [hcs2, hs]

theorem searchGo_ok (offsets : List Nat) (search tag : Option String)
    (l : List Conversation) :
    ∀ idx, (∀ c ∈ l, c.messages ≠ []) →
      searchGo offsets search tag idx l =
        .ok ((enumFrom idx l).filter (searchSpecPred offsets search tag)) := by
  induction l with
  | nil =>
    intro idx _
    rfl
  | cons c rest ih =>
    intro idx hmsg
    have hc := hmsg c (List.mem_cons_self c rest)
    have hrest : ∀ x ∈ rest, x.messages ≠ [] :=
      fun x hx => hmsg x (List.mem_cons_of_mem c hx)
    simp only [searchGo]
    rw [search_step_ok offsets search tag idx c hc, ih (idx + 1) hrest]
    simp only [Bind.bind, Except.bind, pure, Except.pure, enumFrom,
      List.filter_cons]

/-- C6 (amended): search yields exactly the (offset, conversation) pairs,
in reverse-chronological order with 1-based offsets, such that the offset
is a member of the requested offset set when a non-empty one is given, the
question message (second-to-last when at least two messages exist, else
last) contains the search substring when a non-empty one is given, and the
tags contain the exact tag string when a non-empty one is given; empty
filter values, like absent ones, apply no filter, and combining filters
intersects them. Histories are assumed to hold persisted conversations
with at least one message. -/
theorem search_conversations_spec (convs : List Conversation)
    (offsets : List Nat) (search tag : Option String)
    (hmsg : ∀ c ∈ convs, c.messages ≠ []) :
    search_conversations convs offsets search tag =
      .ok ((enumFrom 1 convs.reverse).filter
        (searchSpecPred offsets search tag)) :=
  searchGo_ok offsets search tag convs.reverse 1
    (fun c hc => hmsg c (List.mem_reverse.mp hc))

/-- Witness for C6 (amended): of two logged conversations, a substring
search for bet returns exactly the most recent one at offset 1. -/
theorem search_conversations_spec_witness :
    search_conversations
      [⟨[⟨"user", "alpha"⟩], [], ["t1"], none, none, none, none⟩,
       ⟨[⟨"user", "beta"⟩], [], ["t2"], none, none, none, none⟩]
      [] (some "bet") none =
      .ok [(1, ⟨[⟨"user", "beta"⟩], [], ["t2"], none, none, none, none⟩)] := by
  rw [search_conversations_spec
    [⟨[⟨"user", "alpha"⟩], [], ["t1"], none, none, none, none⟩,
     ⟨[⟨"user", "beta"⟩], [], ["t2"], none, none, none, none⟩]
    [] (some "bet") none (by decide)]
  rfl

/-- C6 counterexample: with the empty string given as tag filter, the code
yields a conversation whose tags do not contain that tag (an empty tag is
falsy in Python and applies no filter), so the claim's "tags contain the
exact tag string when one is given" fails as stated. -/
theorem search_conversations_empty_tag_cex :
    search_conversations
      [⟨[⟨"user", "hi"⟩], [], ["x"], none, none, none, none⟩] [] none
      (some "") =
      .ok [(1, ⟨[⟨"user", "hi"⟩], [], ["x"], none, none, none, none⟩)]
  ∧ ¬ ("" ∈ (["x"] : List String)) :=
  ⟨rfl, by decide⟩

theorem findLogLoop_err_val (l : List Bool) (er : PyErr)
    (h : findLogLoop l = .error er) : er = .fileNotFound := by
  induction l with
  | nil =>
    rw [findLogLoop] at h
    cases h
    rfl
  | cons b rest ih =>
    rw [findLogLoop] at h
    by_cases hb : b = true
    · rw [if_pos hb] at h
      cases h
    · rw [if_neg hb] at h
      cases hx : findLogLoop rest with
      | error er2 =>
        rw [hx] at h
        simp only [Except.map] at h
        cases h
        exact ih hx
      | ok n =>
        rw [hx] at h
        simp [Except.map] at h

theorem findLogLoop_err_iff (l : List Bool) :
    findLogLoop l = .error .fileNotFound ↔ ∀ b ∈ l, b = false := by
  induction l with
  | nil => simp [findLogLoop]
  | cons b rest ih =>
    cases b with
    | true => simp [findLogLoop]
    | false =>
      rw [findLogLoop, if_neg (by simp)]
      cases hx : findLogLoop rest with
      | error er =>
        have her := findLogLoop_err_val rest er hx
        subst her
        have hall := ih.mp hx
        simp only [Except.map]
        constructor
        · intro _ b hb
          rcases List.mem_cons.mp hb with rfl | hb2
          · rfl
          · exact hall b hb2
        · intro _
          trivial
      | ok n =>
        simp only [Except.map]
        constructor
        · intro h
          cases h
        · intro hall
          have hcon : findLogLoop rest = .error .fileNotFound :=
            ih.mpr (fun b hb => hall b (List.mem_cons_of_mem false hb))
          rw [hx] at hcon
          cases hcon

theorem find_err_iff (c : Conversation) (p : ChatMessage → Bool) :
    c.find p = .error .valueError ↔ ∀ m ∈ c.messages, p m = false := by
  unfold Conversation.find
  cases hf : c.messages.reverse.find? p with
  | none =>
    constructor
    · intro _ m hm
      have := List.find?_eq_none.mp hf m (List.mem_reverse.mpr hm)
      simpa using this
    · intro _
      rfl
  | some m =>
    constructor
    · intro h
      cases h
    · intro hall
      have hmem := List.mem_of_find?_eq_some hf
      have hpm := List.find?_some hf
      rw [hall m (List.mem_reverse.mp hmem)] at hpm
      cases hpm

theorem firstYield_eq (offsets : List Nat) (search tag : Option String)
    (l : List Conversation) :
    ∀ idx, (∀ c ∈ l, c.messages ≠ []) →
      firstYield offsets search tag idx l =
        (match (enumFrom idx l).filter
            (searchSpecPred offsets search tag) with
         | [] => .error .systemExit
         | p :: _ => .ok p.2) := by
  induction l with
  | nil =>
    intro idx _
    rfl
  | cons c rest ih =>
    intro idx hmsg
    have hc := hmsg c (List.mem_cons_self c rest)
    have hrest : ∀ x ∈ rest, x.messages ≠ [] :=
      fun x hx => hmsg x (List.mem_cons_of_mem c hx)
    simp only [firstYield]
    rw [search_step_ok offsets search tag idx c hc]
    simp only [Bind.bind, Except.bind, enumFrom, List.filter_cons]
    by_cases hp : searchSpecPred offsets search tag (idx, c) = true
    · simp [hp, pure, Except.pure]
    · rw [Bool.not_eq_true] at hp
      simp only [hp]
      rw [ih (idx + 1) hrest]
      simp

/-- C8: a Not-Found failure is raised exactly in these cases: log-file
discovery raises iff no directory of the ancestor chain (starting
directory up to the filesystem root) holds the conventionally-named log
file, and never raises for a non-directory start path; selecting a single
conversation terminates the run iff no (offset, conversation) pair passes
the offset/search/tag filters; find raises iff no message of the
conversation satisfies the predicate. -/
theorem not_found_spec (startHaveLog : List Bool) (c : Conversation)
    (p : ChatMessage → Bool) (convs : List Conversation)
    (offset : Option Nat) (search tag : Option String)
    (hmsg : ∀ x ∈ convs, x.messages ≠ []) :
    (find_log true startHaveLog = .error .fileNotFound ↔
      ∀ b ∈ startHaveLog, b = false)
  ∧ (∀ er, find_log false startHaveLog ≠ .error er)
  ∧ (c.find p = .error .valueError ↔ ∀ m ∈ c.messages, p m = false)
  ∧ (get_logged_conversation convs offset search tag =
        .error .systemExit ↔
      (enumFrom 1 convs.reverse).filter
        (searchSpecPred (offsetsOfArg offset) search tag) = []) := by
  refine ⟨?_, ?_, find_err_iff c p, ?_⟩
  · rw [show find_log true startHaveLog =
        (findLogLoop startHaveLog).map some from rfl]
    cases hx : findLogLoop startHaveLog with
    | error er =>
      have her := findLogLoop_err_val startHaveLog er hx
      subst her
      simp only [Except.map]
      constructor
      · intro _
        exact (findLogLoop_err_iff startHaveLog).mp hx
      · intro _
        trivial
    | ok n =>
      simp only [Except.map]
      constructor
      · intro h
        cases h
      · intro hall
        have hcon := (findLogLoop_err_iff startHaveLog).mpr hall
        rw [hx] at hcon
        cases hcon
  · intro er h
    rw [show find_log false startHaveLog = .ok none from rfl] at h
    cases h
  · rw [show get_logged_conversation convs offset search tag =
        firstYield (offsetsOfArg offset) search tag 1 convs.reverse
        from rfl]
    rw [firstYield_eq (offsetsOfArg offset) search tag convs.reverse 1
      (fun x hx => hmsg x (List.mem_reverse.mp hx))]
    cases hfl : (enumFrom 1 convs.reverse).filter
        (searchSpecPred (offsetsOfArg offset) search tag) with
    | nil => simp
    | cons q qs =>
      constructor
      · intro h
        cases h
      · intro h
        cases h

/-- Witness for C8: discovery over a two-directory chain without a log
file raises Not-Found, and selecting from an empty history terminates the
run. -/
theorem not_found_spec_witness :
    find_log true [false, false] = .error .fileNotFound
  ∧ get_logged_conversation [] none none none = .error .systemExit := by
  have h := not_found_spec [false, false]
    ⟨[⟨"user", "q"⟩], [], [], none, none, none, none⟩
    (fun m => m.role == "assistant") [] none none none
    (by intro x hx; cases hx)
  exact ⟨h.1.mpr (by decide), (h.2.2.2).mpr rfl⟩

/-! ## Cost calculator lemmas -/

/-- First-wins price resolution per the spec: the exact model id, else the
id with its trailing version suffix stripped, else the
provider-namespaced (openrouter-prefixed) variant. -/
def resolvePricing (table : List (String × Pricing)) (m : String) :
    Option Pricing :=
  optFirst (lookupPrice table m)
    (optFirst (lookupPrice table (stripVersionSuffix m))
      (lookupPrice table ("openrouter/" ++ m)))

/-- C9: for a conversation with a (truthy) usage record and a completion
model id, the cost is prompt tokens times the resolved prompt price plus
completion tokens times the resolved completion price, with no additional
scaling, where the pricing record is resolved progressively: exact id,
else version-suffix-stripped id, else the openrouter-prefixed id. -/
theorem conversation_cost_spec (table : List (String × Pricing))
    (c : Conversation) (uj compj : JsonVal) (m : String) (pr : Pricing)
    (pt ct : Int)
    (hu : c.usage = some uj) (hut : pyTruthy uj = true)
    (hcomp : c.completion = some compj)
    (hmodel : objGet compj "model" = some (.str m))
    (hres : resolvePricing table m = some pr)
    (hpt : objGet uj "prompt_tokens" = some (.num pt))
    (hct : objGet uj "completion_tokens" = some (.num ct)) :
    conversation_cost table c =
      .ok (pr.prompt * (pt : Rat) + pr.completion * (ct : Rat)) := by
  have hm2 := (pySubscript_ok_iff compj "model" (.str m)).mpr hmodel
  have hpt2 := (pySubscript_ok_iff uj "prompt_tokens" (.num pt)).mpr hpt
  have hct2 := (pySubscript_ok_iff uj "completion_tokens" (.num ct)).mpr hct
  cases h1 : lookupPrice table m with
  | some p1 =>
    have hpr : p1 = pr := by
      rw [resolvePricing, h1] at hres
      exact Option.some.inj (by simpa [optFirst] using hres)
    subst hpr
    simp [conversation_cost, hu, hut, hcomp, hm2, h1, hpt2, hct2,
      asNumber, Bind.bind, Except.bind, pure, Except.pure]
  | none =>
    cases h2 : lookupPrice table (stripVersionSuffix m) with
    | some p2 =>
      have hpr : p2 = pr := by
        rw [resolvePricing, h1, h2] at hres
        exact Option.some.inj (by simpa [optFirst] using hres)
      subst hpr
      simp [conversation_cost, hu, hut, hcomp, hm2, h1, h2, hpt2, hct2,
        asNumber, Bind.bind, Except.bind, pure, Except.pure]
    | none =>
      cases h3 : lookupPrice table ("openrouter/" ++ m) with
      | some p3 =>
        have hpr : p3 = pr := by
          rw [resolvePricing, h1, h2, h3] at hres
          exact Option.some.inj (by simpa [optFirst] using hres)
        subst hpr
        simp [conversation_cost, hu, hut, hcomp, hm2, h1, h2, h3, hpt2,
          hct2, asNumber, Bind.bind, Except.bind, pure, Except.pure]
      | none =>
        rw [resolvePricing, h1, h2, h3] at hres
        simp [optFirst] at hres

/-- Witness for C9: a model id resolved through the version-suffix
fallback (gpt-4-0613 priced under gpt-4) with 100 prompt and 50
completion tokens at prices 2 and 3 costs 350. -/
theorem conversation_cost_spec_witness :
    conversation_cost [("gpt-4", ⟨2, 3⟩)]
      ⟨[⟨"user", "q"⟩], [], [], some "gpt-4-0613",
        some (.obj [("prompt_tokens", .num 100),
                    ("completion_tokens", .num 50)]),
        some (.obj [("model", .str "gpt-4-0613")]), none⟩ =
      .ok 350 := by
  rw [conversation_cost_spec [("gpt-4", ⟨2, 3⟩)]
    ⟨[⟨"user", "q"⟩], [], [], some "gpt-4-0613",
      some (.obj [("prompt_tokens", .num 100),
                  ("completion_tokens", .num 50)]),
      some (.obj [("model", .str "gpt-4-0613")]), none⟩
    (.obj [("prompt_tokens", .num 100), ("completion_tokens", .num 50)])
    (.obj [("model", .str "gpt-4-0613")])
    "gpt-4-0613" ⟨2, 3⟩ 100 50 rfl rfl rfl rfl rfl rfl rfl]
  norm_num

/-! ## Log initialization lemmas -/

theorem foldl_write_log (now : String) (defaults : List Conversation)
    (base : List JsonVal) :
    defaults.foldl (fun f c => write_log now f c none none) base =
      base ++ defaults.map (fun c => write_log_entry now c none none) := by
  induction defaults generalizing base with
  | nil => simp
  | cons d rest ih =>
    simp only [List.foldl_cons, List.map_cons]
    rw [show write_log now base d none none =
        base ++ [write_log_entry now d none none] from rfl]
    rw [ih]
    simp

/-- C7: initializing an existing log file without the reinitialize flag
fails with Already-Exists and leaves the file content unchanged;
initializing a nonexistent file writes the version-marker line first and
then appends each bundled default starter conversation as its own log
entry. -/
theorem create_initial_log_spec (now : String)
    (defaults : List Conversation) :
    (∀ lines : List JsonVal,
      create_initial_log now defaults false (some lines) =
        (some .fileExists, some lines))
  ∧ (∀ reinit : Bool,
      create_initial_log now defaults reinit none =
        (none, some (versionLine ::
          defaults.map (fun c => write_log_entry now c none none)))) := by
  constructor
  · intro lines
    rfl
  · intro reinit
    rw [create_initial_log, if_neg (by simp)]
    simp only [foldl_write_log]
    rfl

/-- C10: initialization with the reinitialize flag on an existing file
does not truncate or rewrite it: the result is exactly the existing lines
(first line included) with the bundled default conversations appended at
the end, and a repeated reinitialization appends them again. -/
theorem create_initial_log_reinit_spec (now : String)
    (defaults : List Conversation) (lines : List JsonVal) :
    create_initial_log now defaults true (some lines) =
      (none, some (lines ++
        defaults.map (fun c => write_log_entry now c none none)))
  ∧ create_initial_log now defaults true
      (some (lines ++
        defaults.map (fun c => write_log_entry now c none none))) =
      (none, some ((lines ++
        defaults.map (fun c => write_log_entry now c none none)) ++
        defaults.map (fun c => write_log_entry now c none none))) := by
  constructor
  · rw [create_initial_log, if_neg (by simp)]
    simp only [foldl_write_log]
  · rw [create_initial_log, if_neg (by simp)]
    simp only [foldl_write_log]

end Chatcli
